import Mathlib

/-!
Shallow embedding of the binary-space-partition tiling engine from
`src/aigi/src/tiling.rs` (struct `TilingState` and its methods).

Modelling conventions, kept as close to the Rust source as a pure
embedding allows:

* `Rectangle<i32, Logical>` (a `loc : Point {x, y}` plus a
  `size : Size {w, h}`) is flattened to the four integer fields
  `x, y, w, h` of `Rect`.  Machine `i32` arithmetic is modelled with
  `Int`; none of the claims exercises values anywhere near overflow.
  The halving `(w as f32 / 2.0).floor() as i32` is modelled by
  `Int.fdiv w 2`, which agrees with the float computation exactly for
  all `|w| < 2^24` (every realistic screen size).
* `WlSurface` window identities are modelled by `Nat`.
* The `Rc<RefCell<_>>` aliasing of the source (the `container` parent
  pointers and the `tile_info` map holding aliases of tree leaves)
  cannot be represented in a pure tree.  The parent (`container`)
  pointer is represented implicitly by the tree structure itself: the
  source maintains `container` as exactly the node's parent and
  `container = None` exactly for the root.  Operations that in the
  source reach a tile through its `tile_info` alias (`split`,
  `set_split`, `destroy`) are embedded as a search for the leaf that
  holds the window, descending left first.  Both coincide whenever no
  window occurs in two leaves, which holds in every state reachable
  under the operations' preconditions.
* `panic!` / `.expect(...)` (process aborts) and `Result::Err`
  (recoverable errors) are both modelled with `Except Fail`, with the
  two constructors of `Fail` distinguishing them.  In every error path
  of the source the panic or the `Err` return happens before any field
  of `TilingState` is mutated, so an `.error` result stands for "the
  state was left untouched".
* `HashMap<WlSurface, Rc<RefCell<Tile>>>` is modelled by its key set,
  represented as a duplicate-free `List Nat` (`tile_info`): the map
  values are aliases of the tree leaves, so every observable datum of
  the map except its key set is already part of the tree.
  `HashMap::insert` acts on the key set as `insertKey` (a new key is
  added; an overwrite of an existing key leaves the key set unchanged),
  and `HashMap::remove` as `List.erase`.  The list order carries no
  meaning; statements about the key set are phrased with `List.Perm`
  and `List.toFinset`.
* The `Window` / `Space` plumbing (`update_space`, `smithay` types) is
  outside every claim and is not modelled; operations return the new
  `TilingState` and drop the `Node` return values of the source, which
  no claim mentions.
-/

/-- Flattened form of `Rectangle<i32, Logical>`: location `(x, y)` and
size `(w, h)`. -/
structure Rect where
  x : Int
  y : Int
  w : Int
  h : Int
deriving DecidableEq

/-- The enum `Split` of `tiling.rs` (the split axis of a structure and
the `next_split` preference of a tile). -/
inductive Split where
  | Vertical
  | Horizontal
deriving DecidableEq

/-- The enum `Side` of `tiling.rs`: position of a node inside its
container; `Unique` marks the root, which has no container (the spec
renames this tag `Root`). -/
inductive Side where
  | Left
  | Right
  | Unique
deriving DecidableEq

/-- The struct `Tile` of `tiling.rs`, minus its `container` back
pointer (represented implicitly by the tree, see the module comment)
and with `window : Window` reduced to the `wl_surface` key that
identifies it in `tile_info`. -/
structure Tile where
  next_split : Split
  geometry : Rect
  side : Side
  window : Nat
deriving DecidableEq

/-- The enum `Node` of `tiling.rs`.  The `Structure` payload is
inlined: fields `geometry`, `side`, `split`, `left`, `right` of the
struct `Structure` (again minus the implicit `container`). -/
inductive Node where
  | Structure (geometry : Rect) (side : Side) (split : Split) (left right : Node)
  | Tile (tile : Tile)
deriving DecidableEq

/-- Distinguishes the two ways an operation of the source can fail:
`panicked` models `panic!` / `.expect(...)` (a process abort) and
`err` models returning `Result::Err` (recoverable). -/
inductive Fail where
  | panicked (msg : String)
  | err (msg : String)
deriving DecidableEq

deriving instance DecidableEq for Except

/-- The geometry field of a node (`Structure.geometry` resp.
`Tile.geometry`). -/
def geomOf : Node → Rect
  | .Structure g _ _ _ _ => g
  | .Tile t => t.geometry

/-- The two child geometries computed in the body of
`update_geometry_node` from a structure's geometry and split axis.
`Horizontal`: `new_width = floor(w / 2)`; the left child keeps the
location and height and gets width `new_width`; the right child is
placed at `(x + new_width, y)` **with `left_geom.size`**, i.e. it also
gets width `new_width` (the source passes `left_geom.size`, not the
remainder).  `Vertical` is the transposed computation. -/
def splitGeoms (g : Rect) (sp : Split) : Rect × Rect :=
  match sp with
  | .Horizontal =>
    let new_width := Int.fdiv g.w 2
    (⟨g.x, g.y, new_width, g.h⟩, ⟨g.x + new_width, g.y, new_width, g.h⟩)
  | .Vertical =>
    let new_height := Int.fdiv g.h 2
    (⟨g.x, g.y, g.w, new_height⟩, ⟨g.x, g.y + new_height, g.w, new_height⟩)

/-- Sets a node's geometry to `g` and, when the node is a `Structure`,
recomputes the whole subtree: this is the combination, in
`update_geometry_node`, of `set_geometry` on a child followed by
`recursive_if_structure` (which recurses exactly into `Structure`
children and leaves `Tile` children with only their geometry set). -/
def updateNodeWith : Node → Rect → Node
  | .Tile t, g => .Tile { t with geometry := g }
  | .Structure _ sd sp l r, g =>
    let pr := splitGeoms g sp
    .Structure g sd sp (updateNodeWith l pr.1) (updateNodeWith r pr.2)

/-- The static method `TilingState::update_geometry_node`.  On a
`Structure` it optionally overwrites the geometry (`new_geometry`),
then recomputes both child geometries with `splitGeoms` and recurses
into `Structure` children; on a `Tile` the source executes
`panic!("you stupid?")`. -/
def update_geometry_node (node : Node) (new_geometry : Option Rect) : Except Fail Node :=
  match node with
  | .Structure g sd sp l r =>
    .ok (updateNodeWith (.Structure g sd sp l r) (new_geometry.getD g))
  | .Tile _ => .error (.panicked "you stupid?")

/-- Effect of `HashMap::insert` on the key set: a genuinely new key is
added, inserting a key already present only overwrites its value and
leaves the key set unchanged. -/
def insertKey (w : Nat) (keys : List Nat) : List Nat :=
  if w ∈ keys then keys else w :: keys

/-- The struct `TilingState`: optional tree head and the key set of
the `tile_info` map (see the module comment for why only the key set
is modelled). -/
structure TilingState where
  tile_tree_head : Option Node
  tile_info : List Nat
deriving DecidableEq

/-- `TilingState::init`. -/
def TilingState.init : TilingState :=
  { tile_tree_head := none, tile_info := [] }

namespace TilingState

/-- `TilingState::insert_head`: if a head already exists, return
`Err("WOOOOOW head already exists")`; otherwise create the single tile
(`next_split = Vertical`, `side = Unique`, no container), set it as
head and insert its window into `tile_info`. -/
def insert_head (st : TilingState) (window : Nat) (geometry : Rect) :
    Except Fail TilingState :=
  match st.tile_tree_head with
  | some _ => .error (.err "WOOOOOW head already exists")
  | none =>
    .ok { tile_tree_head :=
            some (.Tile { next_split := Split.Vertical, geometry := geometry,
                          side := Side.Unique, window := window }),
          tile_info := insertKey window st.tile_info }

end TilingState

/-- The structure built in the body of `TilingState::split` from the
tile to be split (before geometries are recomputed): it takes over the
tile's `geometry`, `container`, `side`, and uses the tile's
`next_split` as its `split`; the left child is the old tile with
`side := Left` (its geometry still the stale full rectangle, fixed by
the subsequent `update_geometry_node` call), the right child is the
fresh tile for the new window with `next_split` inherited from the old
tile, `geometry = Rectangle::default()` (all zeroes, "to be changed
later"), `side = Right`. -/
def mkSplitStructure (t : Tile) (new_window : Nat) : Node :=
  .Structure t.geometry t.side t.next_split
    (.Tile { t with side := Side.Left })
    (.Tile { next_split := t.next_split, geometry := ⟨0, 0, 0, 0⟩,
             side := Side.Right, window := new_window })

/-- Tree-level part of `TilingState::split`: replace the leaf holding
`window` by `mkSplitStructure` of that leaf and recompute the new
subtree's geometries, which is the source's
`update_geometry_node(structure, None)` call (always `.ok` on a
`Structure`, here written with `updateNodeWith` at the structure's own
geometry).  `none` when no leaf holds `window`.  The source reaches the
leaf through its `tile_info` alias; the left-first search below agrees
with it on every state whose leaf windows are pairwise distinct. -/
def splitNode (window new_window : Nat) : Node → Option Node
  | .Tile t =>
    if t.window = window then
      some (updateNodeWith (mkSplitStructure t new_window) t.geometry)
    else none
  | .Structure g sd sp l r =>
    match splitNode window new_window l with
    | some l' => some (.Structure g sd sp l' r)
    | none =>
      match splitNode window new_window r with
      | some r' => some (.Structure g sd sp l r')
      | none => none

/-- Tree-level part of `TilingState::set_split`: set the `next_split`
field of the leaf holding `window`, changing nothing else.  `none`
when no leaf holds `window` (in the source that case is the
`.expect` panic on the map lookup). -/
def setSplitNode (window : Nat) (new_split : Split) : Node → Option Node
  | .Tile t =>
    if t.window = window then some (.Tile { t with next_split := new_split })
    else none
  | .Structure g sd sp l r =>
    match setSplitNode window new_split l with
    | some l' => some (.Structure g sd sp l' r)
    | none =>
      match setSplitNode window new_split r with
      | some r' => some (.Structure g sd sp l r')
      | none => none

/-- The sibling promotion of `TilingState::destroy`: the sibling takes
the collapsed container's geometry (`set_geometry`) and side
(`set_side`); when the sibling is a `Structure` the source then calls
`update_geometry_node(sibiling, None)` to re-partition its subtree
from the new rectangle (always `.ok` on a `Structure`, written with
`updateNodeWith`); a `Tile` sibling gets no such call. -/
def promote (sibling : Node) (g : Rect) (sd : Side) : Node :=
  match sibling with
  | .Tile t => .Tile { t with geometry := g, side := sd }
  | .Structure _ _ sp l r => updateNodeWith (.Structure g sd sp l r) g

/-- Tree-level part of `TilingState::destroy`.  Result `some none`:
the subtree was exactly the leaf holding `window` (at the top level
this is the `container = None` branch that empties the tree);
`some (some n')`: the leaf was found below, its container collapsed
and the sibling promoted in its place; `none`: `window` is not held by
any leaf of the subtree.  The source reaches the leaf through its
`tile_info` alias; the left-first search agrees with it on every state
whose leaf windows are pairwise distinct. -/
def removeWindow (window : Nat) : Node → Option (Option Node)
  | .Tile t => if t.window = window then some none else none
  | .Structure g sd sp l r =>
    match removeWindow window l with
    | some none => some (some (promote r g sd))
    | some (some l') => some (some (.Structure g sd sp l' r))
    | none =>
      match removeWindow window r with
      | some none => some (some (promote l g sd))
      | some (some r') => some (some (.Structure g sd sp l r'))
      | none => none

namespace TilingState

/-- `TilingState::split`: the map lookup
`tile_info.get(...).expect("IMP not having a wl_surface in TileInfo")`
panics when the target window is absent; otherwise the leaf is
replaced by the new structure, the subtree geometries are recomputed
(`splitNode`) and the new window's key is inserted into `tile_info`
(a plain `HashMap::insert`: an already present key is silently
overwritten).  The two inner `.error` branches are states in which the
map holds a key whose tile is not in the tree; they cannot arise from
the operations (see the bijection invariant below) and the aliasing
behaviour of the source there has no pure counterpart. -/
def split (st : TilingState) (window new_window : Nat) : Except Fail TilingState :=
  if window ∈ st.tile_info then
    match st.tile_tree_head with
    | some n =>
      match splitNode window new_window n with
      | some n' =>
        .ok { tile_tree_head := some n',
              tile_info := insertKey new_window st.tile_info }
      | none => .error (.panicked "window in tile_info but held by no leaf")
    | none => .error (.panicked "window in tile_info but the tree is empty")
  else .error (.panicked "IMP not having a wl_surface in TileInfo")

/-- `TilingState::set_split`: the map lookup
`tile_info.get_mut(...).expect("IMP having surface NOT present in tile_info map")`
panics when the window is absent; otherwise only the `next_split`
field of that window's tile is overwritten. -/
def set_split (st : TilingState) (wl_surface : Nat) (new_split : Split) :
    Except Fail TilingState :=
  if wl_surface ∈ st.tile_info then
    match st.tile_tree_head with
    | some n =>
      match setSplitNode wl_surface new_split n with
      | some n' => .ok { tile_tree_head := some n', tile_info := st.tile_info }
      | none => .error (.panicked "window in tile_info but held by no leaf")
    | none => .error (.panicked "window in tile_info but the tree is empty")
  else .error (.panicked "IMP having surface NOT present in tile_info map")

/-- `TilingState::destroy`: `tile_info.remove(...).expect("IMP having
surface NOT present in tile_info map")` panics when the window is
absent (the map is unchanged by the failed `remove`); otherwise the
key is removed and the tree is rewritten by `removeWindow`: either the
destroyed tile was the root (`container = None`, the head becomes
`None`) or its container collapses and the sibling is promoted. -/
def destroy (st : TilingState) (wl_surface : Nat) : Except Fail TilingState :=
  if wl_surface ∈ st.tile_info then
    match st.tile_tree_head with
    | some n =>
      match removeWindow wl_surface n with
      | some none =>
        .ok { tile_tree_head := none, tile_info := st.tile_info.erase wl_surface }
      | some (some n') =>
        .ok { tile_tree_head := some n',
              tile_info := st.tile_info.erase wl_surface }
      | none => .error (.panicked "window in tile_info but held by no leaf")
    | none => .error (.panicked "window in tile_info but the tree is empty")
  else .error (.panicked "IMP having surface NOT present in tile_info map")

end TilingState

/-- The windows held by the `Tile` leaves of a subtree, left to
right. -/
def windowsList : Node → List Nat
  | .Tile t => [t.window]
  | .Structure _ _ _ l r => windowsList l ++ windowsList r

/-- Partition exactness as the source actually computes it: every
`Structure` node's two children carry exactly the geometries
`splitGeoms` assigns from the structure's rectangle and axis (both the
floor share; the right child placed immediately after; the remainder
of an odd extent is dropped, not given to the right child). -/
def tiledB : Node → Bool
  | .Tile _ => true
  | .Structure g _ sp l r =>
    (geomOf l = (splitGeoms g sp).1 : Bool) &&
    (geomOf r = (splitGeoms g sp).2 : Bool) &&
    tiledB l && tiledB r

/-- Subtree relation: `Subnode m n` holds when `m` occurs in the tree
`n`. -/
inductive Subnode : Node → Node → Prop where
  | refl (n : Node) : Subnode n n
  | left {m l : Node} (g : Rect) (sd : Side) (sp : Split) (r : Node) :
      Subnode m l → Subnode m (.Structure g sd sp l r)
  | right {m r : Node} (g : Rect) (sd : Side) (sp : Split) (l : Node) :
      Subnode m r → Subnode m (.Structure g sd sp l r)

/-- One engine operation applied successfully, with its precondition
respected.  The preconditions of `insert_head` (empty tree),
`split` / `set_split` / `destroy` (window present) are exactly the
success conditions of the operations, so requiring an `.ok` result
captures them; `split` additionally requires the new window to be
absent from `tile_info`, i.e. genuinely new (see the bijection
analysis: without this freshness condition a `HashMap::insert`
overwrite breaks the one-entry-per-leaf correspondence).
`update_geometry` is the external `update_geometry_node` call on the
tree root (the call the windowing subsystem issues when the output is
resized), with or without a replacement rectangle. -/
inductive Step : TilingState → TilingState → Prop where
  | insert_head {st st' : TilingState} (w : Nat) (g : Rect) :
      st.insert_head w g = .ok st' → Step st st'
  | split {st st' : TilingState} (w nw : Nat) :
      nw ∉ st.tile_info → st.split w nw = .ok st' → Step st st'
  | set_split {st st' : TilingState} (w : Nat) (sp : Split) :
      st.set_split w sp = .ok st' → Step st st'
  | destroy {st st' : TilingState} (w : Nat) :
      st.destroy w = .ok st' → Step st st'
  | update_geometry {st : TilingState} (n n' : Node) (g? : Option Rect) :
      st.tile_tree_head = some n → update_geometry_node n g? = .ok n' →
      Step st { tile_tree_head := some n', tile_info := st.tile_info }

/-- States reachable from `TilingState::init` by precondition-
respecting operations. -/
inductive Reach : TilingState → Prop where
  | init : Reach TilingState.init
  | step {st st' : TilingState} : Reach st → Step st st' → Reach st'

/-- Modelled from the spec's description of `change_axis` ("sets
`preferred_axis` on its Leaf.  Pure metadata update: no geometry or
tree-shape change"): the map over the tree that overwrites the
`next_split` field of every tile holding `window` and changes nothing
else.  It is compared with the source's `set_split` in the frame
claim below. -/
def changeAxisSpec (window : Nat) (new_split : Split) : Node → Node
  | .Tile t =>
    if t.window = window then .Tile { t with next_split := new_split } else .Tile t
  | .Structure g sd sp l r =>
    .Structure g sd sp (changeAxisSpec window new_split l)
      (changeAxisSpec window new_split r)

/-- Discriminator: the operation aborted the process (a `panic!` /
`.expect` failure in the source). -/
def isPanicResult : Except Fail TilingState → Bool
  | .error (.panicked _) => true
  | _ => false

/-- Discriminator: the operation returned a recoverable `Result::Err`
value. -/
def isErrResult : Except Fail TilingState → Bool
  | .error (.err _) => true
  | _ => false

/-! ### Lemmas about geometry propagation -/

theorem windows_updateNodeWith (n : Node) (g : Rect) :
    windowsList (updateNodeWith n g) = windowsList n := by
  induction n generalizing g with
  | Tile t => rfl
  | Structure g0 sd sp l r ihl ihr => simp [updateNodeWith, windowsList, ihl, ihr]

theorem geom_updateNodeWith (n : Node) (g : Rect) :
    geomOf (updateNodeWith n g) = g := by
  cases n <;> rfl

theorem tiledB_updateNodeWith (n : Node) (g : Rect) :
    tiledB (updateNodeWith n g) = true := by
  induction n generalizing g with
  | Tile t => rfl
  | Structure g0 sd sp l r ihl ihr =>
    simp [updateNodeWith, tiledB, geom_updateNodeWith, ihl, ihr]

theorem updateNodeWith_idem (n : Node) (g : Rect) :
    updateNodeWith (updateNodeWith n g) g = updateNodeWith n g := by
  induction n generalizing g with
  | Tile t => rfl
  | Structure g0 sd sp l r ihl ihr => simp [updateNodeWith, ihl, ihr]

/-! ### Lemmas about the tree-level split -/

theorem splitNode_perm {w nw : Nat} {n n' : Node}
    (h : splitNode w nw n = some n') :
    List.Perm (windowsList n') (nw :: windowsList n) := by
  induction n generalizing n' with
  | Tile t =>
    by_cases hw : t.window = w
    · simp only [splitNode, if_pos hw, Option.some.injEq] at h
      subst h
      simp only [windows_updateNodeWith, mkSplitStructure, windowsList]
      exact List.Perm.swap nw t.window []
    · simp [splitNode, hw] at h
  | Structure g sd sp l r ihl ihr =>
    simp only [splitNode] at h
    cases hl : splitNode w nw l with
    | some l' =>
      rw [hl] at h
      cases h
      simpa [windowsList] using (ihl hl).append_right (windowsList r)
    | none =>
      rw [hl] at h
      cases hr : splitNode w nw r with
      | some r' =>
        rw [hr] at h
        cases h
        exact (((ihr hr).append_left (windowsList l)).trans List.perm_middle)
      | none => rw [hr] at h; cases h

theorem splitNode_geom {w nw : Nat} {n n' : Node}
    (h : splitNode w nw n = some n') : geomOf n' = geomOf n := by
  induction n generalizing n' with
  | Tile t =>
    by_cases hw : t.window = w
    · simp only [splitNode, if_pos hw, Option.some.injEq] at h
      subst h
      exact geom_updateNodeWith _ _
    · simp [splitNode, hw] at h
  | Structure g sd sp l r ihl ihr =>
    simp only [splitNode] at h
    cases hl : splitNode w nw l with
    | some l' => rw [hl] at h; cases h; rfl
    | none =>
      rw [hl] at h
      cases hr : splitNode w nw r with
      | some r' => rw [hr] at h; cases h; rfl
      | none => rw [hr] at h; cases h

theorem splitNode_tiledB {w nw : Nat} {n n' : Node}
    (h : splitNode w nw n = some n') (ht : tiledB n = true) :
    tiledB n' = true := by
  induction n generalizing n' with
  | Tile t =>
    by_cases hw : t.window = w
    · simp only [splitNode, if_pos hw, Option.some.injEq] at h
      subst h
      exact tiledB_updateNodeWith _ _
    · simp [splitNode, hw] at h
  | Structure g sd sp l r ihl ihr =>
    simp only [tiledB, Bool.and_eq_true, decide_eq_true_eq] at ht
    obtain ⟨⟨⟨hgl, hgr⟩, htl⟩, htr⟩ := ht
    simp only [splitNode] at h
    cases hl : splitNode w nw l with
    | some l' =>
      rw [hl] at h
      cases h
      simp [tiledB, splitNode_geom hl, hgl, hgr, ihl hl htl, htr]
    | none =>
      rw [hl] at h
      cases hr : splitNode w nw r with
      | some r' =>
        rw [hr] at h
        cases h
        simp [tiledB, splitNode_geom hr, hgl, hgr, htl, ihr hr htr]
      | none => rw [hr] at h; cases h

/-! ### Lemmas about the axis change -/

theorem setSplitNode_windows {w : Nat} {sp : Split} {n n' : Node}
    (h : setSplitNode w sp n = some n') : windowsList n' = windowsList n := by
  induction n generalizing n' with
  | Tile t =>
    by_cases hw : t.window = w
    · simp only [setSplitNode, if_pos hw, Option.some.injEq] at h
      subst h; rfl
    · simp [setSplitNode, hw] at h
  | Structure g sd sp0 l r ihl ihr =>
    simp only [setSplitNode] at h
    cases hl : setSplitNode w sp l with
    | some l' => rw [hl] at h; cases h; simp [windowsList, ihl hl]
    | none =>
      rw [hl] at h
      cases hr : setSplitNode w sp r with
      | some r' => rw [hr] at h; cases h; simp [windowsList, ihr hr]
      | none => rw [hr] at h; cases h

theorem setSplitNode_geom {w : Nat} {sp : Split} {n n' : Node}
    (h : setSplitNode w sp n = some n') : geomOf n' = geomOf n := by
  induction n generalizing n' with
  | Tile t =>
    by_cases hw : t.window = w
    · simp only [setSplitNode, if_pos hw, Option.some.injEq] at h
      subst h; rfl
    · simp [setSplitNode, hw] at h
  | Structure g sd sp0 l r ihl ihr =>
    simp only [setSplitNode] at h
    cases hl : setSplitNode w sp l with
    | some l' => rw [hl] at h; cases h; rfl
    | none =>
      rw [hl] at h
      cases hr : setSplitNode w sp r with
      | some r' => rw [hr] at h; cases h; rfl
      | none => rw [hr] at h; cases h

theorem setSplitNode_tiledB {w : Nat} {sp : Split} {n n' : Node}
    (h : setSplitNode w sp n = some n') (ht : tiledB n = true) :
    tiledB n' = true := by
  induction n generalizing n' with
  | Tile t =>
    by_cases hw : t.window = w
    · simp only [setSplitNode, if_pos hw, Option.some.injEq] at h
      subst h; rfl
    · simp [setSplitNode, hw] at h
  | Structure g sd sp0 l r ihl ihr =>
    simp only [tiledB, Bool.and_eq_true, decide_eq_true_eq] at ht
    obtain ⟨⟨⟨hgl, hgr⟩, htl⟩, htr⟩ := ht
    simp only [setSplitNode] at h
    cases hl : setSplitNode w sp l with
    | some l' =>
      rw [hl] at h
      cases h
      simp [tiledB, setSplitNode_geom hl, hgl, hgr, ihl hl htl, htr]
    | none =>
      rw [hl] at h
      cases hr : setSplitNode w sp r with
      | some r' =>
        rw [hr] at h
        cases h
        simp [tiledB, setSplitNode_geom hr, hgl, hgr, htl, ihr hr htr]
      | none => rw [hr] at h; cases h

theorem setSplitNode_not_mem {w : Nat} {sp : Split} {n : Node}
    (h : w ∉ windowsList n) : setSplitNode w sp n = none := by
  induction n with
  | Tile t =>
    simp only [windowsList, List.mem_singleton] at h
    have h' : ¬ t.window = w := fun hc => h hc.symm
    simp [setSplitNode, h']
  | Structure g sd sp0 l r ihl ihr =>
    simp only [windowsList, List.mem_append] at h
    push_neg at h
    simp [setSplitNode, ihl h.1, ihr h.2]

theorem changeAxisSpec_not_mem {w : Nat} {sp : Split} {n : Node}
    (h : w ∉ windowsList n) : changeAxisSpec w sp n = n := by
  induction n with
  | Tile t =>
    simp only [windowsList, List.mem_singleton] at h
    have h' : ¬ t.window = w := fun hc => h hc.symm
    simp [changeAxisSpec, h']
  | Structure g sd sp0 l r ihl ihr =>
    simp only [windowsList, List.mem_append] at h
    push_neg at h
    simp [changeAxisSpec, ihl h.1, ihr h.2]

theorem setSplitNode_eq_changeAxisSpec {w : Nat} {sp : Split} {n : Node}
    (hd : (windowsList n).Nodup) (hm : w ∈ windowsList n) :
    setSplitNode w sp n = some (changeAxisSpec w sp n) := by
  induction n with
  | Tile t =>
    simp only [windowsList, List.mem_singleton] at hm
    simp [setSplitNode, changeAxisSpec, hm.symm]
  | Structure g sd sp0 l r ihl ihr =>
    simp only [windowsList, List.mem_append] at hm
    have hdisj := List.disjoint_of_nodup_append hd
    cases hm with
    | inl hml =>
      have hnr : w ∉ windowsList r := hdisj hml
      simp [setSplitNode, changeAxisSpec, ihl hd.of_append_left hml,
        changeAxisSpec_not_mem hnr]
    | inr hmr =>
      have hnl : w ∉ windowsList l := fun hc => hdisj hc hmr
      simp [setSplitNode, changeAxisSpec, setSplitNode_not_mem hnl,
        ihr hd.of_append_right hmr, changeAxisSpec_not_mem hnl]

/-! ### Lemmas about destroy -/

theorem promote_geom (s : Node) (g : Rect) (sd : Side) :
    geomOf (promote s g sd) = g := by
  cases s with
  | Tile t => rfl
  | Structure g0 sd0 sp l r => exact geom_updateNodeWith _ _

theorem promote_windows (s : Node) (g : Rect) (sd : Side) :
    windowsList (promote s g sd) = windowsList s := by
  cases s with
  | Tile t => rfl
  | Structure g0 sd0 sp l r => exact windows_updateNodeWith _ _

theorem promote_tiledB (s : Node) (g : Rect) (sd : Side) :
    tiledB (promote s g sd) = true := by
  cases s with
  | Tile t => rfl
  | Structure g0 sd0 sp l r => exact tiledB_updateNodeWith _ _

theorem removeWindow_eq_some_none {w : Nat} {n : Node}
    (h : removeWindow w n = some none) : ∃ t, n = .Tile t ∧ t.window = w := by
  cases n with
  | Tile t =>
    by_cases hw : t.window = w
    · exact ⟨t, rfl, hw⟩
    · simp [removeWindow, hw] at h
  | Structure g sd sp l r =>
    simp only [removeWindow] at h
    cases hl : removeWindow w l with
    | some ol => cases ol <;> rw [hl] at h <;> cases h
    | none =>
      rw [hl] at h
      cases hr : removeWindow w r with
      | some orr => cases orr <;> rw [hr] at h <;> cases h
      | none => rw [hr] at h; cases h

theorem removeWindow_some_some {w : Nat} {n n' : Node}
    (h : removeWindow w n = some (some n')) :
    List.Perm (windowsList n) (w :: windowsList n') ∧
      geomOf n' = geomOf n ∧ (tiledB n = true → tiledB n' = true) := by
  induction n generalizing n' with
  | Tile t =>
    by_cases hw : t.window = w
    · simp [removeWindow, hw] at h
    · simp [removeWindow, hw] at h
  | Structure g sd sp l r ihl ihr =>
    simp only [removeWindow] at h
    cases hl : removeWindow w l with
    | some ol =>
      cases ol with
      | none =>
        rw [hl] at h
        cases h
        obtain ⟨t, rfl, htw⟩ := removeWindow_eq_some_none hl
        refine ⟨?_, promote_geom _ _ _, fun _ => promote_tiledB _ _ _⟩
        simp [windowsList, promote_windows, htw]
      | some l' =>
        rw [hl] at h
        cases h
        obtain ⟨hperm, hgeom, htl'⟩ := ihl hl
        refine ⟨?_, rfl, ?_⟩
        · simpa [windowsList] using hperm.append_right (windowsList r)
        · intro ht
          simp only [tiledB, Bool.and_eq_true, decide_eq_true_eq] at ht
          obtain ⟨⟨⟨hgl, hgr⟩, htl⟩, htr⟩ := ht
          simp [tiledB, hgeom, hgl, hgr, htl' htl, htr]
    | none =>
      rw [hl] at h
      cases hr : removeWindow w r with
      | some orr =>
        cases orr with
        | none =>
          rw [hr] at h
          cases h
          obtain ⟨t, rfl, htw⟩ := removeWindow_eq_some_none hr
          refine ⟨?_, promote_geom _ _ _, fun _ => promote_tiledB _ _ _⟩
          rw [promote_windows]
          simp only [windowsList, htw]
          have h0 := @List.perm_middle _ w (windowsList l) []
          rw [List.append_nil] at h0
          exact h0
        | some r' =>
          rw [hr] at h
          cases h
          obtain ⟨hperm, hgeom, htr'⟩ := ihr hr
          refine ⟨?_, rfl, ?_⟩
          · simpa [windowsList] using
              ((hperm.append_left (windowsList l)).trans List.perm_middle)
          · intro ht
            simp only [tiledB, Bool.and_eq_true, decide_eq_true_eq] at ht
            obtain ⟨⟨⟨hgl, hgr⟩, htl⟩, htr⟩ := ht
            simp [tiledB, hgeom, hgl, hgr, htl, htr' htr]
      | none => rw [hr] at h; cases h

/-! ### Characterizations of the successful operations -/

theorem insert_head_ok {st st' : TilingState} {w : Nat} {g : Rect}
    (h : st.insert_head w g = .ok st') :
    st.tile_tree_head = none ∧
      st' = { tile_tree_head := some (.Tile ⟨Split.Vertical, g, Side.Unique, w⟩),
              tile_info := insertKey w st.tile_info } := by
  cases hh : st.tile_tree_head with
  | some n => simp [TilingState.insert_head, hh] at h
  | none =>
    simp only [TilingState.insert_head, hh, Except.ok.injEq] at h
    exact ⟨rfl, h.symm⟩

theorem split_ok {st st' : TilingState} {w nw : Nat}
    (h : st.split w nw = .ok st') :
    ∃ n n', st.tile_tree_head = some n ∧ w ∈ st.tile_info ∧
      splitNode w nw n = some n' ∧
      st' = { tile_tree_head := some n',
              tile_info := insertKey nw st.tile_info } := by
  by_cases hw : w ∈ st.tile_info
  · cases hh : st.tile_tree_head with
    | none => simp [TilingState.split, hw, hh] at h
    | some n =>
      cases hs : splitNode w nw n with
      | none => simp [TilingState.split, hw, hh, hs] at h
      | some n' =>
        refine ⟨n, n', rfl, hw, hs, ?_⟩
        simp only [TilingState.split, hw, if_true, hh, hs, Except.ok.injEq] at h
        exact h.symm
  · simp [TilingState.split, hw] at h

theorem set_split_ok {st st' : TilingState} {w : Nat} {sp : Split}
    (h : st.set_split w sp = .ok st') :
    ∃ n n', st.tile_tree_head = some n ∧ w ∈ st.tile_info ∧
      setSplitNode w sp n = some n' ∧
      st' = { tile_tree_head := some n', tile_info := st.tile_info } := by
  by_cases hw : w ∈ st.tile_info
  · cases hh : st.tile_tree_head with
    | none => simp [TilingState.set_split, hw, hh] at h
    | some n =>
      cases hs : setSplitNode w sp n with
      | none => simp [TilingState.set_split, hw, hh, hs] at h
      | some n' =>
        refine ⟨n, n', rfl, hw, hs, ?_⟩
        simp only [TilingState.set_split, hw, if_true, hh, hs, Except.ok.injEq] at h
        exact h.symm
  · simp [TilingState.set_split, hw] at h

theorem destroy_ok {st st' : TilingState} {w : Nat}
    (h : st.destroy w = .ok st') :
    ∃ n, st.tile_tree_head = some n ∧ w ∈ st.tile_info ∧
      ((removeWindow w n = some none ∧
        st' = { tile_tree_head := none, tile_info := st.tile_info.erase w }) ∨
       (∃ n', removeWindow w n = some (some n') ∧
        st' = { tile_tree_head := some n', tile_info := st.tile_info.erase w })) := by
  by_cases hw : w ∈ st.tile_info
  · cases hh : st.tile_tree_head with
    | none => simp [TilingState.destroy, hw, hh] at h
    | some n =>
      cases hs : removeWindow w n with
      | none => simp [TilingState.destroy, hw, hh, hs] at h
      | some res =>
        cases res with
        | none =>
          refine ⟨n, rfl, hw, Or.inl ⟨hs, ?_⟩⟩
          simp only [TilingState.destroy, hw, if_true, hh, hs, Except.ok.injEq] at h
          exact h.symm
        | some n' =>
          refine ⟨n, rfl, hw, Or.inr ⟨n', hs, ?_⟩⟩
          simp only [TilingState.destroy, hw, if_true, hh, hs, Except.ok.injEq] at h
          exact h.symm
  · simp [TilingState.destroy, hw] at h

/-! ### The reachable-state invariant -/

theorem perm_toFinset {l₁ l₂ : List Nat} (p : List.Perm l₁ l₂) :
    l₁.toFinset = l₂.toFinset := by
  ext a
  simp [List.mem_toFinset, p.mem_iff]

/-- Well-formedness of a `TilingState`: the key set of `tile_info` is
exactly the multiset of windows held by the tree's leaves (in
particular the two sets are equal and no window is held by two
leaves), and every `Structure` node's children carry exactly the
geometries `splitGeoms` assigns. -/
def StateWF (st : TilingState) : Prop :=
  match st.tile_tree_head with
  | none => st.tile_info = []
  | some n =>
    List.Perm st.tile_info (windowsList n) ∧ (windowsList n).Nodup ∧
      tiledB n = true

theorem reach_wf {st : TilingState} (h : Reach st) : StateWF st := by
  induction h with
  | init => simp [StateWF, TilingState.init]
  | step hr hs ih =>
    cases hs with
    | insert_head w g hok =>
      obtain ⟨hh, rfl⟩ := insert_head_ok hok
      simp only [StateWF, hh] at ih
      refine ⟨?_, by simp [windowsList], rfl⟩
      show List.Perm (insertKey w _) _
      rw [ih]
      simp [insertKey, windowsList]
    | split w nw hfresh hok =>
      obtain ⟨n, n', hh, hw, hs', rfl⟩ := split_ok hok
      simp only [StateWF, hh] at ih
      obtain ⟨hinfo, hnodup, htiled⟩ := ih
      have hperm := splitNode_perm hs'
      have hnwmem : nw ∉ windowsList n := fun hc => hfresh (hinfo.mem_iff.mpr hc)
      refine ⟨?_, ?_, splitNode_tiledB hs' htiled⟩
      · show List.Perm (insertKey nw _) _
        rw [insertKey, if_neg hfresh]
        exact (hinfo.cons nw).trans hperm.symm
      · exact hperm.nodup_iff.mpr (List.nodup_cons.mpr ⟨hnwmem, hnodup⟩)
    | set_split w sp hok =>
      obtain ⟨n, n', hh, hw, hs', rfl⟩ := set_split_ok hok
      simp only [StateWF, hh] at ih
      obtain ⟨hinfo, hnodup, htiled⟩ := ih
      refine ⟨?_, ?_, setSplitNode_tiledB hs' htiled⟩
      · show List.Perm _ _
        rw [setSplitNode_windows hs']
        exact hinfo
      · rw [setSplitNode_windows hs']
        exact hnodup
    | destroy w hok =>
      obtain ⟨n, hh, hw, hcase⟩ := destroy_ok hok
      simp only [StateWF, hh] at ih
      obtain ⟨hinfo, hnodup, htiled⟩ := ih
      cases hcase with
      | inl hc =>
        obtain ⟨hrm, rfl⟩ := hc
        obtain ⟨t, rfl, htw⟩ := removeWindow_eq_some_none hrm
        have hws : windowsList (Node.Tile t) = [w] := by simp [windowsList, htw]
        rw [hws] at hinfo
        have hkeys := List.perm_singleton.mp hinfo
        simp only [StateWF]
        show List.erase _ _ = ([] : List Nat)
        rw [hkeys]
        simp
      | inr hc =>
        obtain ⟨n', hrm, rfl⟩ := hc
        obtain ⟨hperm, hgeom, htiled'⟩ := removeWindow_some_some hrm
        have hnodup' : (w :: windowsList n').Nodup := hperm.nodup_iff.mp hnodup
        rw [List.nodup_cons] at hnodup'
        refine ⟨?_, hnodup'.2, htiled' htiled⟩
        show List.Perm (List.erase _ _) _
        have h1 := hinfo.erase w
        have h2 := hperm.erase w
        rw [List.erase_cons_head] at h2
        exact h1.trans h2
    | update_geometry n n' g? hh hup =>
      cases n with
      | Tile t => simp [update_geometry_node] at hup
      | Structure g sd sp l r =>
        simp only [update_geometry_node, Except.ok.injEq] at hup
        subst hup
        simp only [StateWF, hh] at ih
        obtain ⟨hinfo, hnodup, _⟩ := ih
        refine ⟨?_, ?_, tiledB_updateNodeWith _ _⟩
        · show List.Perm _ _
          rw [windows_updateNodeWith]
          exact hinfo
        · rw [windows_updateNodeWith]
          exact hnodup

/-! ### Further helper lemmas -/

theorem tiledB_subnode {m root : Node} (hs : Subnode m root)
    (ht : tiledB root = true) : tiledB m = true := by
  induction hs with
  | refl => exact ht
  | left g sd sp r hsub ih =>
    simp only [tiledB, Bool.and_eq_true] at ht
    exact ih ht.1.2
  | right g sd sp l hsub ih =>
    simp only [tiledB, Bool.and_eq_true] at ht
    exact ih ht.2

theorem splitNode_mem_some {w : Nat} {n : Node} (hm : w ∈ windowsList n)
    (nw : Nat) : ∃ n', splitNode w nw n = some n' := by
  induction n with
  | Tile t =>
    simp only [windowsList, List.mem_singleton] at hm
    exact ⟨updateNodeWith (mkSplitStructure t nw) t.geometry,
      by simp [splitNode, hm.symm]⟩
  | Structure g sd sp l r ihl ihr =>
    simp only [windowsList, List.mem_append] at hm
    cases hm with
    | inl hml =>
      obtain ⟨l', hl⟩ := ihl hml
      exact ⟨Node.Structure g sd sp l' r, by simp [splitNode, hl]⟩
    | inr hmr =>
      cases hl : splitNode w nw l with
      | some l' => exact ⟨Node.Structure g sd sp l' r, by simp [splitNode, hl]⟩
      | none =>
        obtain ⟨r', hr⟩ := ihr hmr
        exact ⟨Node.Structure g sd sp l r', by simp [splitNode, hl, hr]⟩

/-! ### A small reachable example state, used as concrete input below -/

/-- Left leaf of the example tree: window `0` after splitting a
`3 × 3` root vertically. -/
def exLeft : Node := .Tile ⟨Split.Vertical, ⟨0, 0, 3, 1⟩, Side.Left, 0⟩

/-- Right leaf of the example tree: window `1`, also of height `1`
(the floor share) — rows `y = 2` of the parent are covered by neither
child. -/
def exRight : Node := .Tile ⟨Split.Vertical, ⟨0, 1, 3, 1⟩, Side.Right, 1⟩

/-- The tree produced by `insert_head(0, {0,0,3,3})` followed by
`split(0, 1)`. -/
def exTree : Node := .Structure ⟨0, 0, 3, 3⟩ Side.Unique Split.Vertical exLeft exRight

/-- The state holding `exTree`, with key set `{0, 1}` (newest key
first). -/
def exState : TilingState := ⟨some exTree, [1, 0]⟩

theorem reach_exState : Reach exState := by
  have h1 : Reach (⟨some (.Tile ⟨Split.Vertical, ⟨0, 0, 3, 3⟩, Side.Unique, 0⟩),
      [0]⟩ : TilingState) :=
    Reach.step Reach.init (Step.insert_head 0 ⟨0, 0, 3, 3⟩ (by decide))
  exact Reach.step h1 (Step.split 0 1 (by decide) (by decide))

/-! ### Claim C5 -/

/-- A concrete leaf used to exhibit the behaviour of
`update_geometry_node` on a `Tile`. -/
def c5leaf : Node := .Tile ⟨Split.Vertical, ⟨0, 0, 5, 5⟩, Side.Unique, 0⟩

/-- C5, counterexample: the claim says that calling `update_geometry`
on a Leaf with no new geometry "does nothing further and returns
normally"; on this concrete Leaf the source instead executes
`panic!("you stupid?")` — the call does not return normally (and in
particular does not return the unchanged leaf). -/
theorem c5_counterexample :
    update_geometry_node c5leaf none = .error (.panicked "you stupid?") ∧
      update_geometry_node c5leaf none ≠ .ok c5leaf := by
  decide

/-- C5, amended: calling `update_geometry_node` on a Leaf (with or
without a new geometry argument) always aborts with the panic
`"you stupid?"`; the recursion and the callers (`split`, `destroy`)
invoke it only on Split nodes, so a Leaf argument is never reached in
normal operation. -/
theorem c5_leaf_update_panics (t : Tile) (g? : Option Rect) :
    update_geometry_node (.Tile t) g? = .error (.panicked "you stupid?") := rfl

/-! ### Claim C6 -/

/-- C6: `insert_root(A, G)` on the empty tree succeeds and produces
exactly one Leaf holding `A` with geometry `G`, preferred axis
Vertical, side `Unique` (the tag the spec calls `Root`; the leaf is
the tree head, hence has no parent), registered as the only entry of
the Window Index; a second `insert_root` on the resulting state — with
any window and geometry — fails with the recoverable error
`"WOOOOOW head already exists"` (the spec's `AlreadyInitialized`), and
in this pure embedding no mutation accompanies an error result. -/
theorem c6_root_transition (A : Nat) (G : Rect) (A' : Nat) (G' : Rect) :
    TilingState.init.insert_head A G =
      .ok ⟨some (.Tile ⟨Split.Vertical, G, Side.Unique, A⟩), [A]⟩ ∧
    TilingState.insert_head
        ⟨some (.Tile ⟨Split.Vertical, G, Side.Unique, A⟩), [A]⟩ A' G' =
      .error (.err "WOOOOOW head already exists") := by
  exact ⟨rfl, rfl⟩

/-! ### Claim C7 -/

/-- State after `insert_root(A = 0, {0,0,1000,800})`. -/
def c7s1 : TilingState :=
  ⟨some (.Tile ⟨Split.Vertical, ⟨0, 0, 1000, 800⟩, Side.Unique, 0⟩), [0]⟩

/-- State after `split(A, B = 1)`: A at `{0,0,1000,400}`, B at
`{0,400,1000,400}`. -/
def c7s2 : TilingState :=
  ⟨some (.Structure ⟨0, 0, 1000, 800⟩ Side.Unique Split.Vertical
      (.Tile ⟨Split.Vertical, ⟨0, 0, 1000, 400⟩, Side.Left, 0⟩)
      (.Tile ⟨Split.Vertical, ⟨0, 400, 1000, 400⟩, Side.Right, 1⟩)),
    [1, 0]⟩

/-- State after `change_axis(A, Horizontal)`: only A's preferred axis
changed. -/
def c7s3 : TilingState :=
  ⟨some (.Structure ⟨0, 0, 1000, 800⟩ Side.Unique Split.Vertical
      (.Tile ⟨Split.Horizontal, ⟨0, 0, 1000, 400⟩, Side.Left, 0⟩)
      (.Tile ⟨Split.Vertical, ⟨0, 400, 1000, 400⟩, Side.Right, 1⟩)),
    [1, 0]⟩

/-- State after `split(A, C = 2)`: A at `{0,0,500,400}`, C at
`{500,0,500,400}`, B unchanged. -/
def c7s4 : TilingState :=
  ⟨some (.Structure ⟨0, 0, 1000, 800⟩ Side.Unique Split.Vertical
      (.Structure ⟨0, 0, 1000, 400⟩ Side.Left Split.Horizontal
        (.Tile ⟨Split.Horizontal, ⟨0, 0, 500, 400⟩, Side.Left, 0⟩)
        (.Tile ⟨Split.Horizontal, ⟨500, 0, 500, 400⟩, Side.Right, 2⟩))
      (.Tile ⟨Split.Vertical, ⟨0, 400, 1000, 400⟩, Side.Right, 1⟩)),
    [2, 1, 0]⟩

/-- State after `destroy(C)`: A restored to `{0,0,1000,400}`, B
unchanged. -/
def c7s5 : TilingState :=
  ⟨some (.Structure ⟨0, 0, 1000, 800⟩ Side.Unique Split.Vertical
      (.Tile ⟨Split.Horizontal, ⟨0, 0, 1000, 400⟩, Side.Left, 0⟩)
      (.Tile ⟨Split.Vertical, ⟨0, 400, 1000, 400⟩, Side.Right, 1⟩)),
    [1, 0]⟩

/-- C7: the spec's worked scenario on a `1000 × 800` output, with
windows `A = 0`, `B = 1`, `C = 2`: every intermediate state is exactly
as the spec expects — after `split(A, B)` A is at `{0,0,1000,400}` and
B at `{0,400,1000,400}`; after `change_axis(A, Horizontal)` and
`split(A, C)` A is at `{0,0,500,400}`, C at `{500,0,500,400}` and B
unchanged; after `destroy(C)` A is restored to `{0,0,1000,400}` with B
unchanged. -/
theorem c7_scenario :
    TilingState.init.insert_head 0 ⟨0, 0, 1000, 800⟩ = .ok c7s1 ∧
    c7s1.split 0 1 = .ok c7s2 ∧
    c7s2.set_split 0 Split.Horizontal = .ok c7s3 ∧
    c7s3.split 0 2 = .ok c7s4 ∧
    c7s4.destroy 2 = .ok c7s5 := by
  decide

/-! ### Claim C8 -/

/-- C8: on any Split node, running `update_geometry(node, None)` twice
produces exactly the same result as running it once — the propagation
is a pure function of the node's current rectangle, axis and subtree
shape, so the second call changes nothing. -/
theorem c8_update_geometry_idempotent (g : Rect) (sd : Side) (sp : Split)
    (l r : Node) :
    (update_geometry_node (Node.Structure g sd sp l r) none >>= fun n' =>
      update_geometry_node n' none) =
    update_geometry_node (Node.Structure g sd sp l r) none := by
  show Except.ok (updateNodeWith (updateNodeWith (Node.Structure g sd sp l r) g) g) =
    Except.ok (updateNodeWith (Node.Structure g sd sp l r) g)
  rw [updateNodeWith_idem]

/-! ### Claim C1 -/

/-- C1, counterexample: reachable state on a `3 × 3` output after
`insert_root(0, {0,0,3,3})` and `split(0, 1)` with axis Vertical.  The
Split's rectangle has height `3` and its left child gets the floor
share `1`, so the claim says the right child's height is
`3 - 1 = 2` (the remainder going to the second child); the code
instead gives the right child height `1` as well — row `y = 2` of the
parent is covered by neither child. -/
theorem c1_counterexample :
    (TilingState.init.insert_head 0 ⟨0, 0, 3, 3⟩ >>= fun s1 => s1.split 0 1) =
      .ok exState ∧
    exState.tile_tree_head =
      some (.Structure ⟨0, 0, 3, 3⟩ Side.Unique Split.Vertical exLeft exRight) ∧
    (geomOf exLeft).h = 1 ∧ (geomOf exRight).h = 1 ∧
    (⟨0, 0, 3, 3⟩ : Rect).h - (geomOf exLeft).h = 2 ∧ (1 : Int) ≠ 2 := by
  decide

/-- C1, amended: for every Split node of every reachable state, along
a Horizontal axis the left child's width is `floor(parent.width / 2)`
and the right child's width is **also** `floor(parent.width / 2)` (the
remainder of an odd extent is dropped, not absorbed by the second
child), the right child starts immediately after the left child, and
both children have the parent's height and vertical position; the
Vertical case is the transposed rule. -/
theorem c1_partition_floor {st : TilingState} {root : Node} {g : Rect}
    {sd : Side} {sp : Split} {l r : Node}
    (hre : Reach st) (hh : st.tile_tree_head = some root)
    (hsub : Subnode (.Structure g sd sp l r) root) :
    match sp with
    | Split.Horizontal =>
        geomOf l = ⟨g.x, g.y, Int.fdiv g.w 2, g.h⟩ ∧
        geomOf r = ⟨g.x + Int.fdiv g.w 2, g.y, Int.fdiv g.w 2, g.h⟩
    | Split.Vertical =>
        geomOf l = ⟨g.x, g.y, g.w, Int.fdiv g.h 2⟩ ∧
        geomOf r = ⟨g.x, g.y + Int.fdiv g.h 2, g.w, Int.fdiv g.h 2⟩ := by
  have hwf := reach_wf hre
  simp only [StateWF, hh] at hwf
  have ht := tiledB_subnode hsub hwf.2.2
  simp only [tiledB, Bool.and_eq_true, decide_eq_true_eq] at ht
  obtain ⟨⟨⟨hgl, hgr⟩, _⟩, _⟩ := ht
  cases sp with
  | Horizontal => exact ⟨hgl, hgr⟩
  | Vertical => exact ⟨hgl, hgr⟩

/-- C1, witness: the amended partition rule evaluated on the concrete
reachable split of a `3 × 3` rectangle. -/
theorem c1_partition_floor_witness :
    geomOf exLeft = ⟨0, 0, 3, 1⟩ ∧ geomOf exRight = ⟨0, 1, 3, 1⟩ :=
  c1_partition_floor reach_exState rfl (Subnode.refl exTree)

/-! ### Claim C2 -/

/-- C2: starting from a single-leaf tree holding window `a` with
geometry `g` (any preferred axis `ns`, Window Index exactly `{a}`),
`split(a, b)` followed by `destroy(b)` restores exactly the initial
state: a single root Leaf for `a` with geometry `g` (and unchanged
preferred axis and `Unique` side), with the Window Index again exactly
`{a}`.  The two windows are distinct surfaces. -/
theorem c2_split_destroy_inverse (a b : Nat) (g : Rect) (ns : Split)
    (hab : a ≠ b) :
    (TilingState.split ⟨some (.Tile ⟨ns, g, Side.Unique, a⟩), [a]⟩ a b >>=
        fun st1 => st1.destroy b) =
      .ok ⟨some (.Tile ⟨ns, g, Side.Unique, a⟩), [a]⟩ := by
  have hba : ¬ b = a := fun hc => hab hc.symm
  simp [TilingState.split, TilingState.destroy, splitNode, mkSplitStructure,
    updateNodeWith, insertKey, removeWindow, promote, hab, hba,
    Bind.bind, Except.bind]

/-- C2, witness: the inverse law evaluated at windows `0`, `1` and
geometry `{0,0,10,10}`. -/
theorem c2_split_destroy_inverse_witness :
    (TilingState.split
        ⟨some (.Tile ⟨Split.Vertical, ⟨0, 0, 10, 10⟩, Side.Unique, 0⟩), [0]⟩ 0 1 >>=
        fun st1 => st1.destroy 1) =
      .ok ⟨some (.Tile ⟨Split.Vertical, ⟨0, 0, 10, 10⟩, Side.Unique, 0⟩), [0]⟩ :=
  c2_split_destroy_inverse 0 1 ⟨0, 0, 10, 10⟩ Split.Vertical (by decide)

/-! ### Claim C3 -/

/-- The tree after `insert_root(0, {0,0,8,8})`, `split(0, 1)`,
`split(1, 0)`: three leaves holding windows `0`, `1`, `0`. -/
def c3tree : Node :=
  .Structure ⟨0, 0, 8, 8⟩ Side.Unique Split.Vertical
    (.Tile ⟨Split.Vertical, ⟨0, 0, 8, 4⟩, Side.Left, 0⟩)
    (.Structure ⟨0, 4, 8, 4⟩ Side.Right Split.Vertical
      (.Tile ⟨Split.Vertical, ⟨0, 4, 8, 2⟩, Side.Left, 1⟩)
      (.Tile ⟨Split.Vertical, ⟨0, 6, 8, 2⟩, Side.Right, 0⟩))

/-- C3, counterexample: the sequence `insert_root(0, {0,0,8,8})`,
`split(0, 1)`, `split(1, 0)` respects every precondition the spec
states for these operations (each split's target window is present in
the Window Index, as witnessed by the successful — non-panicking —
results), yet afterwards the tree has three leaves while the Window
Index has two entries, and one window is held by two leaves: there is
no one-to-one correspondence between index entries and leaves. -/
theorem c3_counterexample :
    (TilingState.init.insert_head 0 ⟨0, 0, 8, 8⟩ >>= fun s1 =>
      s1.split 0 1 >>= fun s2 => s2.split 1 0) = .ok ⟨some c3tree, [1, 0]⟩ ∧
    ([1, 0] : List Nat).length = 2 ∧ (windowsList c3tree).length = 3 ∧
    ¬ (windowsList c3tree).Nodup := by
  decide

/-- C3, amended: after every sequence of `insert_root`, `split`,
`change_axis`, `destroy`, `update_geometry` operations that respect
their preconditions **and in which every `split` is given a genuinely
new window (one whose surface is not already a key of the Window
Index)**, the key set of the Window Index is exactly the set of
windows held by the Leaf nodes reachable from the tree root, with one
index entry per Leaf and vice versa (both lists are duplicate-free and
have equal length). -/
theorem c3_bijection {st : TilingState} (h : Reach st) :
    match st.tile_tree_head with
    | none => st.tile_info = []
    | some n =>
        st.tile_info.toFinset = (windowsList n).toFinset ∧
        st.tile_info.Nodup ∧ (windowsList n).Nodup ∧
        st.tile_info.length = (windowsList n).length := by
  have hwf := reach_wf h
  cases hh : st.tile_tree_head with
  | none =>
    simp only [StateWF, hh] at hwf
    exact hwf
  | some n =>
    simp only [StateWF, hh] at hwf
    obtain ⟨hperm, hnodup, _⟩ := hwf
    exact ⟨perm_toFinset hperm, hperm.nodup_iff.mpr hnodup, hnodup,
      hperm.length_eq⟩

/-- C3, witness: the bijection evaluated on the concrete reachable
two-leaf state. -/
theorem c3_bijection_witness :
    ([1, 0] : List Nat).toFinset = (windowsList exTree).toFinset ∧
    ([1, 0] : List Nat).Nodup ∧ (windowsList exTree).Nodup ∧
    ([1, 0] : List Nat).length = (windowsList exTree).length :=
  c3_bijection reach_exState

/-! ### Claim C4 -/

/-- C4, counterexample: on a concrete state whose Window Index is
`{0, 1}`, calling `split`, `change_axis` or `destroy` with the absent
window `7` does not produce a recoverable error: all three abort with
a panic (`.expect` failure), which kills the engine process. -/
theorem c4_counterexample :
    isPanicResult (exState.split 7 3) = true ∧
    isErrResult (exState.split 7 3) = false ∧
    isPanicResult (exState.set_split 7 Split.Horizontal) = true ∧
    isErrResult (exState.set_split 7 Split.Horizontal) = false ∧
    isPanicResult (exState.destroy 7) = true ∧
    isErrResult (exState.destroy 7) = false := by
  decide

/-- C4, amended: for every state and window `w` absent from the Window
Index, `split(w, _)`, `change_axis(w, _)` and `destroy(w)` all fail
with a panic (the `.expect` messages of the source), not a recoverable
error; the failed map lookup precedes every mutation, so the tree and
the Window Index are left unmodified (in this pure embedding an
`.error` result carries no new state). -/
theorem c4_absent_window_panics (st : TilingState) (w nw : Nat) (sp : Split)
    (hw : w ∉ st.tile_info) :
    st.split w nw =
      .error (.panicked "IMP not having a wl_surface in TileInfo") ∧
    st.set_split w sp =
      .error (.panicked "IMP having surface NOT present in tile_info map") ∧
    st.destroy w =
      .error (.panicked "IMP having surface NOT present in tile_info map") := by
  refine ⟨?_, ?_, ?_⟩ <;>
    simp [TilingState.split, TilingState.set_split, TilingState.destroy, hw]

/-- C4, witness: the amended statement evaluated at the absent window
`7` on the concrete two-leaf state. -/
theorem c4_absent_window_panics_witness :
    exState.split 7 3 =
      .error (.panicked "IMP not having a wl_surface in TileInfo") ∧
    exState.set_split 7 Split.Horizontal =
      .error (.panicked "IMP having surface NOT present in tile_info map") ∧
    exState.destroy 7 =
      .error (.panicked "IMP having surface NOT present in tile_info map") :=
  c4_absent_window_panics exState 7 3 Split.Horizontal (by decide)

/-! ### Claim C9 -/

/-- C9: for a window `w` present in the Window Index (held by a leaf
of the tree, windows pairwise distinct), `change_axis(w, a)` succeeds
and produces exactly the state whose tree is `changeAxisSpec w a`
applied to the old tree — the map that overwrites the `next_split`
field of `w`'s Leaf and changes nothing else: every geometry, the tree
shape, every `side` tag, every other leaf's preferred axis, and the
Window Index are all unchanged. -/
theorem c9_change_axis_frame (st : TilingState) (n : Node) (w : Nat)
    (sp : Split) (hh : st.tile_tree_head = some n)
    (hnd : (windowsList n).Nodup) (hmem : w ∈ windowsList n)
    (hkey : w ∈ st.tile_info) :
    st.set_split w sp = .ok ⟨some (changeAxisSpec w sp n), st.tile_info⟩ := by
  simp [TilingState.set_split, hkey, hh, setSplitNode_eq_changeAxisSpec hnd hmem]

/-- C9, witness: the frame property evaluated on the concrete two-leaf
state, changing window `0`'s preferred axis to Horizontal. -/
theorem c9_change_axis_frame_witness :
    TilingState.set_split exState 0 Split.Horizontal =
      .ok ⟨some (changeAxisSpec 0 Split.Horizontal exTree), [1, 0]⟩ :=
  c9_change_axis_frame exState exTree 0 Split.Horizontal rfl (by decide)
    (by decide) (by decide)

/-! ### Claim C10 -/

/-- C10: if `split(w, nw)` is given a new window `nw` whose surface is
already a key of the Window Index (of a state whose index matches its
leaves one-to-one), the insertion silently overwrites the old entry —
the key set is unchanged — while the old Leaf holding `nw` stays in
the tree: afterwards `nw` is held by two leaves, the tree has one leaf
more than before, and the index has strictly fewer entries than the
tree has leaves. -/
theorem c10_duplicate_surface (st : TilingState) (n : Node) (w nw : Nat)
    (hh : st.tile_tree_head = some n)
    (hinfo : List.Perm st.tile_info (windowsList n))
    (hnd : (windowsList n).Nodup)
    (hw : w ∈ windowsList n) (hnw : nw ∈ st.tile_info) :
    ∃ n', st.split w nw = .ok ⟨some n', st.tile_info⟩ ∧
      (windowsList n').length = (windowsList n).length + 1 ∧
      st.tile_info.length < (windowsList n').length ∧
      (windowsList n').count nw = 2 := by
  obtain ⟨n', hs⟩ := splitNode_mem_some hw nw
  have hkey : w ∈ st.tile_info := hinfo.mem_iff.mpr hw
  have hperm := splitNode_perm hs
  have hmemn : nw ∈ windowsList n := hinfo.mem_iff.mp hnw
  refine ⟨n', ?_, ?_, ?_, ?_⟩
  · simp [TilingState.split, hkey, hh, hs, insertKey, hnw]
  · rw [hperm.length_eq, List.length_cons]
  · rw [hperm.length_eq, List.length_cons, hinfo.length_eq]
    exact Nat.lt_succ_self _
  · rw [hperm.count_eq, List.count_cons_self,
      List.count_eq_one_of_mem hnd hmemn]

/-- C10, witness: splitting window `0` of the concrete two-leaf state
with the already-registered surface `1` as the "new" window. -/
theorem c10_duplicate_surface_witness :
    ∃ n', TilingState.split exState 0 1 = .ok ⟨some n', [1, 0]⟩ ∧
      (windowsList n').length = (windowsList exTree).length + 1 ∧
      ([1, 0] : List Nat).length < (windowsList n').length ∧
      (windowsList n').count 1 = 2 :=
  c10_duplicate_surface exState exTree 0 1 rfl (List.Perm.swap 0 1 [])
    (by decide) (by decide) (by decide)
